import Mathlib

/-!
Verification development for the scene-graph base component declared in
`src/es-core/src/GuiComponent.h` (batocera-emulationstation).

Only the header is available under `src/`; the method bodies live in
`GuiComponent.cpp`, which is not part of the sampled sources.  Following the
header's declarations and inline definitions, the missing bodies are modelled
from the specification (each such definition carries a doc comment starting
with `Modelled from the spec:`).  Scalars are modelled as rationals (`ℚ`)
instead of IEEE floats; the properties verified here are about control flow,
caching, slot bookkeeping and event ordering, none of which depend on
floating-point rounding.  Trigonometric evaluation (cosf/sinf inside
Transform4x4f::rotate, not in src/) is abstracted as a pair of function
parameters `cosq sinq : ℚ → ℚ`.
-/

namespace GuiComp

/-- Two-component vector, modelling `Vector2f` (math/Vector2f.h, not in src/). -/
structure Vector2f where
  x : ℚ
  y : ℚ
deriving DecidableEq

/-- Three-component vector, modelling `Vector3f` (math/Vector3f.h, not in src/). -/
structure Vector3f where
  x : ℚ
  y : ℚ
  z : ℚ
deriving DecidableEq

/-- Four-component vector, modelling `Vector4f` (math/Vector4f.h, not in src/).
Used for the clip rectangle `mClipRect`, whose components are interpreted as
(x, y, w, h). -/
structure Vector4f where
  x : ℚ
  y : ℚ
  z : ℚ
  w : ℚ
deriving DecidableEq

/-- A 4×4 matrix over ℚ, modelling `Transform4x4f` (math/Transform4x4f.h, not in
src/). -/
abbrev Mat4 := Matrix (Fin 4) (Fin 4) ℚ

/-- Translation matrix. Modelled from the spec: `translate(position)`. -/
def translateM (x y z : ℚ) : Mat4 :=
  !![1, 0, 0, x;
     0, 1, 0, y;
     0, 0, 1, z;
     0, 0, 0, 1]

/-- Modelled from the spec: `recenter(origin,size)` — the origin is a
normalized percentage of the component's size, so recentering translates by
`-origin*size`. -/
def recenterM (origin size : Vector2f) : Mat4 :=
  translateM (-(origin.x * size.x)) (-(origin.y * size.y)) 0

/-- Rotation about the z axis given the cosine and sine of the angle.
Modelled from the spec; the trig evaluation itself (cosf/sinf, not in src/)
is supplied by the parameters. -/
def rotateZM (c s : ℚ) : Mat4 :=
  !![c, -s, 0, 0;
     s,  c, 0, 0;
     0,  0, 1, 0;
     0,  0, 0, 1]

/-- Modelled from the spec: `rotate(rotation, rotation-origin)` — rotation
about the point `rotationOrigin * size` (the rotation origin is a normalized
percentage of the component's size, header lines 82-86). -/
def rotateAboutM (c s : ℚ) (pivot : Vector2f) : Mat4 :=
  translateM pivot.x pivot.y 0 * rotateZM c s * translateM (-pivot.x) (-pivot.y) 0

/-- Uniform scale matrix on the x/y plane. -/
def scaleM (k : ℚ) : Mat4 :=
  !![k, 0, 0, 0;
     0, k, 0, 0;
     0, 0, 1, 0;
     0, 0, 0, 1]

/-- Modelled from the spec: `scale(scale, scaleOrigin)` — uniform scale about
the scale origin. -/
def scaleAboutM (k : ℚ) (pivot : Vector2f) : Mat4 :=
  translateM pivot.x pivot.y 0 * scaleM k * translateM (-pivot.x) (-pivot.y) 0

/-- The geometric inputs of the transform: the fields of `GuiComponent`
declared at header lines 247-258 that feed `getTransform()`. -/
structure TProps where
  mPosition : Vector3f
  mOrigin : Vector2f
  mRotationOrigin : Vector2f
  mSize : Vector2f
  mScaleOrigin : Vector2f
  mScreenOffset : Vector2f
  mRotation : ℚ
  mScale : ℚ
deriving DecidableEq

/-- Modelled from the spec: the fixed recomputation formula of the transform
cache, `translate(position) · recenter(origin,size) ·
rotate(rotation,rotation-origin) · scale(scale,scaleOrigin) ·
translate(screenOffset)`, in this exact order.  `cosq`/`sinq` abstract the
trig evaluation. -/
def computeTransform (cosq sinq : ℚ → ℚ) (p : TProps) : Mat4 :=
  translateM p.mPosition.x p.mPosition.y p.mPosition.z
    * recenterM p.mOrigin p.mSize
    * rotateAboutM (cosq p.mRotation) (sinq p.mRotation)
        ⟨p.mRotationOrigin.x * p.mSize.x, p.mRotationOrigin.y * p.mSize.y⟩
    * scaleAboutM p.mScale p.mScaleOrigin
    * translateM p.mScreenOffset.x p.mScreenOffset.y 0

/-- The transform-cache portion of a `GuiComponent`: the geometric properties
together with `mTransform` (header line 282, "Don't access this directly! Use
getTransform()!") and the dirty flag `mTransformDirty` (header line 269). -/
structure TransformState where
  props : TProps
  mTransform : Mat4
  mTransformDirty : Bool

/-- One call to one of the eight geometric setters (header lines 71-113):
position, origin, rotation origin, size, rotation, scale, scale origin,
screen offset. -/
inductive SetterOp where
  | setPosition (x y z : ℚ)
  | setOrigin (x y : ℚ)
  | setRotationOrigin (x y : ℚ)
  | setSize (w h : ℚ)
  | setRotation (r : ℚ)
  | setScale (s : ℚ)
  | setScaleOrigin (v : Vector2f)
  | setScreenOffset (v : Vector2f)

/-- Modelled from the spec: each geometric setter stores the new value and
marks the cached transform dirty (the setter bodies are in GuiComponent.cpp,
not in src/; the spec states "any setter that changes an input marks the
cache dirty"). -/
def applySetter (op : SetterOp) (s : TransformState) : TransformState :=
  match op with
  | .setPosition x y z =>
      { s with props := { s.props with mPosition := ⟨x, y, z⟩ }, mTransformDirty := true }
  | .setOrigin x y =>
      { s with props := { s.props with mOrigin := ⟨x, y⟩ }, mTransformDirty := true }
  | .setRotationOrigin x y =>
      { s with props := { s.props with mRotationOrigin := ⟨x, y⟩ }, mTransformDirty := true }
  | .setSize w h =>
      { s with props := { s.props with mSize := ⟨w, h⟩ }, mTransformDirty := true }
  | .setRotation r =>
      { s with props := { s.props with mRotation := r }, mTransformDirty := true }
  | .setScale k =>
      { s with props := { s.props with mScale := k }, mTransformDirty := true }
  | .setScaleOrigin v =>
      { s with props := { s.props with mScaleOrigin := v }, mTransformDirty := true }
  | .setScreenOffset v =>
      { s with props := { s.props with mScreenOffset := v }, mTransformDirty := true }

/-- Modelled from the spec: `getTransform()` (header line 152) recomputes the
cached matrix when the dirty flag is set, clears the flag, and returns the
cached matrix.  Returns the matrix together with the updated state. -/
def getTransform (cosq sinq : ℚ → ℚ) (s : TransformState) : Mat4 × TransformState :=
  if s.mTransformDirty then
    let m := computeTransform cosq sinq s.props
    (m, { s with mTransform := m, mTransformDirty := false })
  else
    (s.mTransform, s)

/-- One step in an arbitrary interleaving of setter calls and
`getTransform()` reads. -/
inductive TOp where
  | setter (op : SetterOp)
  | readTransform

/-- State effect of one step: a setter mutates a property and dirties the
cache; a read refreshes the cache through `getTransform`. -/
def applyTOp (cosq sinq : ℚ → ℚ) (op : TOp) (s : TransformState) : TransformState :=
  match op with
  | .setter o => applySetter o s
  | .readTransform => (getTransform cosq sinq s).2

/-- Run a sequence of setter calls / transform reads. -/
def runTOps (cosq sinq : ℚ → ℚ) (ops : List TOp) (s : TransformState) : TransformState :=
  ops.foldl (fun st op => applyTOp cosq sinq op st) s

/-- Modelled from the spec: the state of a freshly constructed `GuiComponent`
(the constructor body is in GuiComponent.cpp, not in src/): identity-like
defaults with the transform cache initially dirty, so the first read
recomputes. -/
def initTransformState : TransformState :=
  { props :=
      { mPosition := ⟨0, 0, 0⟩
        mOrigin := ⟨0, 0⟩
        mRotationOrigin := ⟨0, 0⟩
        mSize := ⟨0, 0⟩
        mScaleOrigin := ⟨0, 0⟩
        mScreenOffset := ⟨0, 0⟩
        mRotation := 0
        mScale := 1 }
    mTransform := 1
    mTransformDirty := true }

/-- Cache coherence invariant: whenever the dirty flag is clear, the cached
matrix agrees with the recomputation formula on the current properties. -/
def tcCoherent (cosq sinq : ℚ → ℚ) (s : TransformState) : Prop :=
  s.mTransformDirty = false → s.mTransform = computeTransform cosq sinq s.props

/-! ### Animation slot table

`mAnimationMap : std::map<unsigned char, AnimationController*>` (header line
285) with `MAX_ANIMATIONS = 4` (line 275).  The bodies of the animation
operations (header lines 138-147) are in GuiComponent.cpp, not in src/, and
are modelled from the spec §4.2.  Callback invocation is observed through an
event log `fired`: invoking a completion callback appends its identifier. -/

/-- The properties an animation can target (`AnimateFlags`: POSITION, SCALE,
OPACITY — header lines 22-31). -/
structure NodeProps where
  mPosition : Vector3f
  mScale : ℚ
  mOpacity : ℕ
deriving DecidableEq

/-- Modelled from the spec: an `Animation` (forward-declared at header line
14; animations/Animation.h not in src/) has a duration and applies
interpolated property values at a normalized progress in [0,1]. -/
structure Animation where
  duration : ℕ
  applyAt : ℚ → NodeProps → NodeProps

/-- Modelled from the spec: an `AnimationController` (forward-declared at
header line 15) holds the animation, the remaining start delay, the elapsed
time, the one-shot completion callback (identified by a number; invocation is
logged), and the reverse flag. -/
structure AnimationController where
  animation : Animation
  delay : ℕ
  time : ℕ
  finishedCallback : Option ℕ
  reverse : Bool

/-- The slot-count bound `MAX_ANIMATIONS` (header line 275). -/
def MAX_ANIMATIONS : ℕ := 4

/-- The animation-related portion of a `GuiComponent`: the animated
properties, the slot table `mAnimationMap`, and the ghost log of invoked
completion callbacks. -/
structure AnimState where
  props : NodeProps
  animMap : ℕ → Option AnimationController
  fired : List ℕ

/-- Normalized progress of a controller, reversed when the reverse flag is
set (the reverse flag affects only interpolation direction, not duration). -/
def controllerProgress (c : AnimationController) : ℚ :=
  let t : ℚ :=
    if c.animation.duration = 0 then 1
    else min 1 ((c.time : ℚ) / (c.animation.duration : ℚ))
  if c.reverse then 1 - t else t

/-- Modelled from the spec: advancing a controller by `dt` first consumes the
start delay, then accumulates elapsed time. -/
def stepController (dt : ℕ) (c : AnimationController) : AnimationController :=
  if dt ≤ c.delay then { c with delay := c.delay - dt }
  else { c with delay := 0, time := c.time + (dt - c.delay) }

/-- A controller has completed when its elapsed time reaches its duration. -/
def controllerFinished (c : AnimationController) : Bool :=
  c.animation.duration ≤ c.time

/-- Modelled from the spec: `setAnimation` (header line 141) installs a
controller in `slot`, discarding without callback whatever was previously
there; a slot index outside 0..MAX_ANIMATIONS-1 is a no-op (spec §7:
out-of-range slot operations are no-ops, never fatal). -/
def setAnimation (anim : Animation) (delay : ℕ) (cb : Option ℕ) (rev : Bool)
    (slot : ℕ) (s : AnimState) : AnimState :=
  if slot < MAX_ANIMATIONS then
    { s with animMap := Function.update s.animMap slot (some ⟨anim, delay, 0, cb, rev⟩) }
  else s

/-- Modelled from the spec: `advanceAnimation` (header line 145) advances
progress by `dt`, applies interpolated values, and on completion invokes the
callback exactly once then frees the slot.  Returns whether a controller
occupied the slot. -/
def advanceAnimation (slot : ℕ) (dt : ℕ) (s : AnimState) : Bool × AnimState :=
  if slot < MAX_ANIMATIONS then
    match s.animMap slot with
    | none => (false, s)
    | some c =>
        let c' := stepController dt c
        let props' :=
          if c'.delay = 0 then c'.animation.applyAt (controllerProgress c') s.props
          else s.props
        if controllerFinished c' then
          (true, { s with props := props',
                          animMap := Function.update s.animMap slot none,
                          fired := s.fired ++ c.finishedCallback.toList })
        else
          (true, { s with props := props',
                          animMap := Function.update s.animMap slot (some c') })
  else (false, s)

/-- Modelled from the spec: `cancelAnimation` (header line 143) removes the
controller, leaving properties exactly as they are, and does not invoke the
callback.  Returns whether a controller occupied the slot. -/
def cancelAnimation (slot : ℕ) (s : AnimState) : Bool × AnimState :=
  if slot < MAX_ANIMATIONS then
    match s.animMap slot with
    | none => (false, s)
    | some _ => (true, { s with animMap := Function.update s.animMap slot none })
  else (false, s)

/-- Modelled from the spec: `stopAnimation` (header line 142) removes the
controller and does invoke the completion callback (an immediate logical
finish at current progress).  Returns whether a controller occupied the
slot. -/
def stopAnimation (slot : ℕ) (s : AnimState) : Bool × AnimState :=
  if slot < MAX_ANIMATIONS then
    match s.animMap slot with
    | none => (false, s)
    | some c =>
        (true, { s with animMap := Function.update s.animMap slot none,
                        fired := s.fired ++ c.finishedCallback.toList })
  else (false, s)

/-- Modelled from the spec: `finishAnimation` (header line 144) forces
progress to 100%, applies final values, invokes the callback, then frees the
slot.  With the reverse flag set the final applied values are those at
progress 0 of the underlying animation. -/
def finishAnimation (slot : ℕ) (s : AnimState) : Bool × AnimState :=
  if slot < MAX_ANIMATIONS then
    match s.animMap slot with
    | none => (false, s)
    | some c =>
        (true, { s with
                    props := c.animation.applyAt (if c.reverse then 0 else 1) s.props,
                    animMap := Function.update s.animMap slot none,
                    fired := s.fired ++ c.finishedCallback.toList })
  else (false, s)

/-- Modelled from the spec: `isAnimationPlaying` (header line 138) — a
read-only occupancy query, false for out-of-range slots. -/
def isAnimationPlaying (slot : ℕ) (s : AnimState) : Bool :=
  decide (slot < MAX_ANIMATIONS) && (s.animMap slot).isSome

/-- Modelled from the spec: `isAnimationReversed` (header line 139) — a
read-only query of the occupying controller's reverse flag, false for empty
or out-of-range slots. -/
def isAnimationReversed (slot : ℕ) (s : AnimState) : Bool :=
  decide (slot < MAX_ANIMATIONS) &&
    (match s.animMap slot with
     | some c => c.reverse
     | none => false)

/-- Modelled from the spec: `getAnimationTime` (header line 140) — read-only;
reports the occupying controller's elapsed time, nothing for empty or
out-of-range slots. -/
def getAnimationTime (slot : ℕ) (s : AnimState) : Option ℕ :=
  if slot < MAX_ANIMATIONS then (s.animMap slot).map (fun c => c.time) else none

/-- Modelled from the spec: `stopAllAnimations` (header line 146) applies
stop semantics to every slot in turn. -/
def stopAllAnimations (s : AnimState) : AnimState :=
  (List.range MAX_ANIMATIONS).foldl (fun st i => (stopAnimation i st).2) s

/-- Modelled from the spec: `cancelAllAnimations` (header line 147) applies
cancel semantics to every slot in turn. -/
def cancelAllAnimations (s : AnimState) : AnimState :=
  (List.range MAX_ANIMATIONS).foldl (fun st i => (cancelAnimation i st).2) s

/-- The completion callbacks of the occupied slots, in slot order. -/
def occupiedCallbacks (s : AnimState) : List ℕ :=
  (List.range MAX_ANIMATIONS).filterMap
    (fun i => (s.animMap i).bind (fun c => c.finishedCallback))

/-- Modelled from the spec: the animation state of a freshly constructed
component — no controllers installed, no callbacks invoked. -/
def initAnimState : AnimState :=
  { props := { mPosition := ⟨0, 0, 0⟩, mScale := 1, mOpacity := 255 }
    animMap := fun _ => none
    fired := [] }

/-- A do-nothing animation used as a concrete input in witnesses. -/
def animIdle : Animation := ⟨350, fun _ p => p⟩

/-- A scale-interpolating animation used as a concrete input in witnesses. -/
def animScale : Animation := ⟨350, fun t p => { p with mScale := t }⟩

/-- A concrete controller occupying a slot in witnesses. -/
def ctrlSample : AnimationController := ⟨animScale, 0, 100, some 7, false⟩

/-- A concrete animation state with slot 0 occupied by `ctrlSample`. -/
def animStateOcc : AnimState :=
  { props := { mPosition := ⟨0, 0, 0⟩, mScale := 1, mOpacity := 255 }
    animMap := fun i => if i = 0 then some ctrlSample else none
    fired := [] }

/-! ### Storyboard engine

The storyboard members (header lines 196-209, 288-289) have their bodies in
GuiComponent.cpp / StoryboardAnimator (not in src/); they are modelled from
the spec §4.3.  Storyboard tracks drive properties through the string-keyed
property interface `getProperty`/`setProperty` (header lines 191-192), so
node properties are modelled as a map from property name to value, with a
ghost log of the names whose change hooks fired through the setter path. -/

/-- Modelled from the spec: one storyboard track — a property name with its
ordered keyframes (time offset, value).  The keyframes only matter to
playback interpolation, which claims about select/restore quantify over. -/
structure SBTrack where
  propertyName : String
  keyframes : List (ℕ × ℚ)
deriving DecidableEq

/-- Modelled from the spec: a theme-declared storyboard (`ThemeStoryboard`,
registered in `mStoryBoards`, header line 289): a set of property tracks. -/
structure ThemeStoryboard where
  tracks : List SBTrack
deriving DecidableEq

/-- Modelled from the spec: the selection record of the storyboard engine —
which storyboard is selected and the snapshot of the current value of every
property referenced by its tracks, taken at select time. -/
structure SelectedStoryboard where
  name : String
  snapshot : List (String × ℚ)
deriving DecidableEq

/-- The storyboard-related portion of a `GuiComponent`: string-keyed
property values, the ghost hook log, the registry `mStoryBoards` and the
current selection. -/
structure SBState where
  props : String → ℚ
  hookLog : List String
  storyboards : String → Option ThemeStoryboard
  selected : Option SelectedStoryboard

/-- Modelled from the spec: `setProperty` (header line 192) — the normal
property setter path: stores the value and fires the property's change
hook (logged by name). -/
def setPropertyS (name : String) (v : ℚ) (s : SBState) : SBState :=
  { s with props := Function.update s.props name v
           hookLog := s.hookLog ++ [name] }

/-- Modelled from the spec: `selectStoryboard` (header line 199) — fails
silently when the name is unknown or a storyboard is already selected
(callers must deselect first); on success snapshots the current values of
every property referenced by the storyboard's tracks. -/
def selectStoryboard (name : String) (s : SBState) : Bool × SBState :=
  match s.storyboards name with
  | none => (false, s)
  | some sb =>
      match s.selected with
      | some _ => (false, s)
      | none =>
          (true, { s with selected := some ⟨name,
              sb.tracks.map (fun t => (t.propertyName, s.props t.propertyName))⟩ })

/-- Modelled from the spec: `deselectStoryboard` (header line 200) — leaves
the selected state; with `restore = true` every property snapshotted at
select time is restored through its normal setter (hooks fire); with
`restore = false` the current values are left untouched. -/
def deselectStoryboard (restore : Bool) (s : SBState) : SBState :=
  match s.selected with
  | none => s
  | some sel =>
      let s' := if restore
        then sel.snapshot.foldl (fun st nv => setPropertyS nv.1 nv.2 st) s
        else s
      { s' with selected := none }

/-- Modelled from the spec: storyboard playback applies interpolated track
values through the normal property setters each tick.  For the restore
claims the interpolation itself is irrelevant, so playback is quantified as
an arbitrary sequence of (property, value) applications. -/
def sbPlaybackApply (muts : List (String × ℚ)) (s : SBState) : SBState :=
  muts.foldl (fun st nv => setPropertyS nv.1 nv.2 st) s

/-- A concrete storyboard for witnesses: an opacity track 255→0 over 500
time units. -/
def sbFade : ThemeStoryboard := ⟨[⟨"opacity", [(0, 255), (500, 0)]⟩]⟩

/-- A concrete storyboard state for witnesses: "fade" registered, nothing
selected. -/
def sbStateSample : SBState :=
  { props := fun n => if n = "opacity" then 255 else 0
    hookLog := []
    storyboards := fun n => if n = "fade" then some sbFade else none
    selected := none }

/-! ### Clip rectangle access

`Vector4f& getClipRect() { return mClipRect; }` is defined inline in the
header (line 211); `setClipRect` (line 212) is virtual with its body in
GuiComponent.cpp.  The state carries a ghost log of `setClipRect`
invocations, so that bypassing the setter path is observable. -/

/-- The clip-rectangle portion of a `GuiComponent`: the field `mClipRect`
(header line 283) plus the ghost log of `setClipRect` calls. -/
structure ClipComp where
  mClipRect : Vector4f
  setClipRectCalls : List Vector4f

/-- Reading through `getClipRect` (header line 211, inline in src/): it returns a reference to
`mClipRect` itself, so the value read through it is the field. -/
def getClipRect_read (c : ClipComp) : Vector4f := c.mClipRect

/-- Assignment through the non-const reference returned by `getClipRect`
(header line 211): the inline body returns the field `mClipRect` itself, so
a C++ assignment through the returned reference is a direct store to the
field — no virtual dispatch through `setClipRect`, no change hook. -/
def assignThroughClipRef (v : Vector4f) (c : ClipComp) : ClipComp :=
  { c with mClipRect := v }

/-- A call to the virtual `setClipRect` (header line 212): whatever the
override does, the invocation itself is recorded in the ghost log (the base
body is in GuiComponent.cpp, not in src/; only the dispatch event matters to
the claim). -/
def setClipRect_call (v : Vector4f) (c : ClipComp) : ClipComp :=
  { c with mClipRect := v, setClipRectCalls := c.setClipRectCalls ++ [v] }

/-! ### Clip composition during render

`renderChildren` (header line 235) and the renderer clip stack are in .cpp
files not under src/; modelled from the spec: "render ... passes the node's
own clip rectangle (intersected with any inherited clip) down to children —
clip rectangles compose by intersection, never replace". -/

/-- The set of points admitted by a clip constraint: everything for `none`
(no clipping), the rectangle's points for `some r`, with `r` in
(x, y, w, h) form as `mClipRect` is. -/
def clipRegion : Option Vector4f → Set (ℚ × ℚ)
  | none => Set.univ
  | some r => { p | r.x ≤ p.1 ∧ p.1 ≤ r.x + r.z ∧ r.y ≤ p.2 ∧ p.2 ≤ r.y + r.w }

/-- Rectangle intersection in (x, y, w, h) form. -/
def clipIntersect (a b : Vector4f) : Vector4f :=
  ⟨max a.x b.x, max a.y b.y,
   min (a.x + a.z) (b.x + b.z) - max a.x b.x,
   min (a.y + a.w) (b.y + b.w) - max a.y b.y⟩

/-- Modelled from the spec: the clip passed down to children is the node's
own clip rectangle intersected with any inherited clip — never a
replacement. -/
def clipCombine : Option Vector4f → Option Vector4f → Option Vector4f
  | none, own => own
  | some i, none => some i
  | some i, some o => some (clipIntersect i o)

/-- A scene-graph node for the render recursion: its own clip rectangle (or
none) and its children (`mChildren`, header line 245). -/
inductive GuiNode where
  | mk (ownClip : Option Vector4f) (children : List GuiNode)

mutual

/-- Modelled from the spec: the effective clip rectangle of every node in a
subtree, in render order — each node's effective clip is the inherited clip
combined with its own, and that effective clip is what `renderChildren`
passes down. -/
def renderClips (inherited : Option Vector4f) : GuiNode → List (Option Vector4f)
  | .mk own children =>
      clipCombine inherited own
        :: renderChildrenClips (clipCombine inherited own) children

/-- The `renderChildren` recursion (header line 235) over the child list. -/
def renderChildrenClips (inherited : Option Vector4f) :
    List GuiNode → List (Option Vector4f)
  | [] => []
  | t :: ts => renderClips inherited t ++ renderChildrenClips inherited ts

end

/-! ### Update ordering

Header line 60: "Default implementation calls updateSelf(deltaTime) and
updateChildren(deltaTime)"; `updateSelf` "updates animations" (line 236).
The bodies are in GuiComponent.cpp, not in src/; modelled from the spec's
ordering guarantee. -/

/-- Modelled from the spec: `updateSelf` (header line 236) advances this
node's own animations — every slot of the slot table is advanced by the
frame delta. -/
def updateSelfA (dt : ℕ) (s : AnimState) : AnimState :=
  (List.range MAX_ANIMATIONS).foldl (fun st i => (advanceAnimation i dt st).2) s

/-- A scene-graph node for the update recursion: its animation state and its
children. -/
inductive UNode where
  | mk (st : AnimState) (children : List UNode)

mutual

/-- Modelled from the spec: `update` (header line 61) — `updateSelf` first,
then `updateChildren`.  Returns the updated subtree together with the event
trace in execution order: each node contributes one event at the moment its
own animations finished advancing, carrying its node path and its
post-animation property values. -/
def updateNode (dt : ℕ) (path : List ℕ) : UNode → UNode × List (List ℕ × NodeProps)
  | .mk st cs =>
      let st' := updateSelfA dt st
      let r := updateChildrenNodes dt path 0 cs
      (.mk st' r.1, (path, st'.props) :: r.2)

/-- The `updateChildren` recursion (header line 237) over the child list, numbering the
children from `i`. -/
def updateChildrenNodes (dt : ℕ) (path : List ℕ) (i : ℕ) :
    List UNode → List UNode × List (List ℕ × NodeProps)
  | [] => ([], [])
  | c :: cs =>
      let rc := updateNode dt (path ++ [i]) c
      let rcs := updateChildrenNodes dt path (i + 1) cs
      (rc.1 :: rcs.1, rc.2 ++ rcs.2)

end

/-- Whether `q` is the path of a strict descendant of the node at `p`. -/
def strictDescendant (p q : List ℕ) : Bool :=
  decide (p.length < q.length) && decide (q.take p.length = p)

/-- Whether every event in a trace belongs to a strict descendant of `p`. -/
def descendantsOnly (p : List ℕ) (tr : List (List ℕ × NodeProps)) : Bool :=
  tr.all (fun e => strictDescendant p e.1)

theorem applySetter_dirty (op : SetterOp) (s : TransformState) :
    (applySetter op s).mTransformDirty = true := by
  cases op <;> rfl

theorem applySetter_transform (op : SetterOp) (s : TransformState) :
    (applySetter op s).mTransform = s.mTransform := by
  cases op <;> rfl

theorem tcCoherent_applyTOp (cosq sinq : ℚ → ℚ) (op : TOp) (s : TransformState)
    (h : tcCoherent cosq sinq s) : tcCoherent cosq sinq (applyTOp cosq sinq op s) := by
  cases op with
  | setter o =>
      intro hd
      simp only [applyTOp] at hd
      rw [applySetter_dirty] at hd
      exact absurd hd (by simp)
  | readTransform =>
      intro _
      simp only [applyTOp, getTransform]
      by_cases hd : s.mTransformDirty
      · simp [hd]
      · simp only [Bool.not_eq_true] at hd
        simp [hd, h hd]

theorem tcCoherent_runTOps (cosq sinq : ℚ → ℚ) (ops : List TOp) (s : TransformState)
    (h : tcCoherent cosq sinq s) : tcCoherent cosq sinq (runTOps cosq sinq ops s) := by
  induction ops generalizing s with
  | nil => exact h
  | cons op rest ih =>
      exact ih _ (tcCoherent_applyTOp cosq sinq op s h)

theorem getTransform_of_coherent (cosq sinq : ℚ → ℚ) (s : TransformState)
    (h : tcCoherent cosq sinq s) :
    (getTransform cosq sinq s).1 = computeTransform cosq sinq s.props := by
  simp only [getTransform]
  by_cases hd : s.mTransformDirty
  · simp [hd]
  · simp only [Bool.not_eq_true] at hd
    simp [hd, h hd]

theorem tcCoherent_init (cosq sinq : ℚ → ℚ) :
    tcCoherent cosq sinq initTransformState := by
  intro h
  simp [initTransformState] at h

/-- C1: after any sequence of geometric setter calls and `getTransform()`
reads starting from a freshly constructed component, `getTransform()` returns
exactly `translate(position) · recenter(origin,size) ·
rotate(rotation,rotation-origin) · scale(scale,scaleOrigin) ·
translate(screenOffset)` evaluated on the latest property values — no stale
cache is ever observed — and every geometric setter marks the cached
transform dirty. -/
theorem getTransform_never_stale :
    (∀ (cosq sinq : ℚ → ℚ) (ops : List TOp),
        (getTransform cosq sinq (runTOps cosq sinq ops initTransformState)).1
          = computeTransform cosq sinq (runTOps cosq sinq ops initTransformState).props)
    ∧ (∀ (op : SetterOp) (s : TransformState),
        (applySetter op s).mTransformDirty = true) := by
  constructor
  · intro cosq sinq ops
    exact getTransform_of_coherent cosq sinq _
      (tcCoherent_runTOps cosq sinq ops _ (tcCoherent_init cosq sinq))
  · exact applySetter_dirty

theorem stepController_fresh_finished (a : Animation) (d : ℕ) (cb : Option ℕ)
    (r : Bool) (dt : ℕ) (h : d + a.duration ≤ dt) :
    controllerFinished (stepController dt ⟨a, d, 0, cb, r⟩) = true := by
  simp only [stepController, controllerFinished]
  split
  · next hle => simp only [decide_eq_true_eq]; omega
  · next hle => simp only [decide_eq_true_eq]; omega

/-- C2: installing a second controller into an occupied slot replaces the
first: the second controller occupies the slot, the first controller's
completion callback is never invoked (the fired log is unchanged by the two
installations), and when the second animation later runs to completion only
the second controller's callback fires. -/
theorem setAnimation_replaces_silently
    (slot : ℕ) (a1 a2 : Animation) (d1 d2 : ℕ) (cb1 cb2 : Option ℕ)
    (r1 r2 : Bool) (s : AnimState) (dt : ℕ)
    (hslot : slot < MAX_ANIMATIONS) (hdt : d2 + a2.duration ≤ dt) :
    (setAnimation a2 d2 cb2 r2 slot (setAnimation a1 d1 cb1 r1 slot s)).animMap slot
        = some ⟨a2, d2, 0, cb2, r2⟩
    ∧ (setAnimation a2 d2 cb2 r2 slot (setAnimation a1 d1 cb1 r1 slot s)).fired = s.fired
    ∧ (advanceAnimation slot dt
          (setAnimation a2 d2 cb2 r2 slot (setAnimation a1 d1 cb1 r1 slot s))).2.fired
        = s.fired ++ cb2.toList := by
  refine ⟨?_, ?_, ?_⟩
  · simp [setAnimation, hslot]
  · simp [setAnimation, hslot]
  · simp only [setAnimation, if_pos hslot]
    simp [advanceAnimation, if_pos hslot, Function.update_same,
          stepController_fresh_finished a2 d2 cb2 r2 dt hdt]

/-- C2 witness: concrete double installation into slot 0 followed by a
completing advance. -/
theorem setAnimation_replaces_silently_witness :
    (setAnimation animScale 0 (some 2) false 0
        (setAnimation animIdle 0 (some 1) false 0 initAnimState)).animMap 0
        = some ⟨animScale, 0, 0, some 2, false⟩
    ∧ (setAnimation animScale 0 (some 2) false 0
        (setAnimation animIdle 0 (some 1) false 0 initAnimState)).fired = initAnimState.fired
    ∧ (advanceAnimation 0 350
          (setAnimation animScale 0 (some 2) false 0
            (setAnimation animIdle 0 (some 1) false 0 initAnimState))).2.fired
        = initAnimState.fired ++ (some 2).toList :=
  setAnimation_replaces_silently 0 animIdle animScale 0 0 (some 1) (some 2)
    false false initAnimState 350 (by decide) (by decide)

/-- C3: on a slot occupied by a controller with a completion callback,
`cancelAnimation` removes the controller, leaves the properties and the fired
log untouched; `stopAnimation` removes the controller and invokes the
callback exactly once; `finishAnimation` removes the controller, applies the
final animation values to the properties and invokes the callback exactly
once. -/
theorem removal_callback_semantics
    (slot : ℕ) (s : AnimState) (c : AnimationController) (cb : ℕ)
    (hslot : slot < MAX_ANIMATIONS) (hocc : s.animMap slot = some c)
    (hcb : c.finishedCallback = some cb) :
    cancelAnimation slot s
        = (true, { s with animMap := Function.update s.animMap slot none })
    ∧ stopAnimation slot s
        = (true, { s with animMap := Function.update s.animMap slot none,
                          fired := s.fired ++ [cb] })
    ∧ finishAnimation slot s
        = (true, { s with
                      props := c.animation.applyAt (if c.reverse then 0 else 1) s.props,
                      animMap := Function.update s.animMap slot none,
                      fired := s.fired ++ [cb] }) := by
  refine ⟨?_, ?_, ?_⟩ <;>
    simp [cancelAnimation, stopAnimation, finishAnimation, hslot, hocc, hcb]

/-- C3 witness: concrete occupied slot 0 with callback 7. -/
theorem removal_callback_semantics_witness :
    cancelAnimation 0 animStateOcc
        = (true, { animStateOcc with
                      animMap := Function.update animStateOcc.animMap 0 none })
    ∧ stopAnimation 0 animStateOcc
        = (true, { animStateOcc with
                      animMap := Function.update animStateOcc.animMap 0 none,
                      fired := animStateOcc.fired ++ [7] })
    ∧ finishAnimation 0 animStateOcc
        = (true, { animStateOcc with
                      props := ctrlSample.animation.applyAt
                        (if ctrlSample.reverse then 0 else 1) animStateOcc.props,
                      animMap := Function.update animStateOcc.animMap 0 none,
                      fired := animStateOcc.fired ++ [7] }) :=
  removal_callback_semantics 0 animStateOcc ctrlSample 7 (by decide) rfl rfl

/-- C4: every animation operation on a slot index outside 0..MAX_ANIMATIONS-1
is a no-op: `setAnimation` installs nothing, the bool-returning operations
return false and leave the state unchanged, and the queries report
nothing. -/
theorem out_of_range_slot_noop
    (slot : ℕ) (hslot : MAX_ANIMATIONS ≤ slot) (s : AnimState)
    (anim : Animation) (d dt : ℕ) (cb : Option ℕ) (r : Bool) :
    setAnimation anim d cb r slot s = s
    ∧ advanceAnimation slot dt s = (false, s)
    ∧ stopAnimation slot s = (false, s)
    ∧ cancelAnimation slot s = (false, s)
    ∧ finishAnimation slot s = (false, s)
    ∧ isAnimationPlaying slot s = false
    ∧ isAnimationReversed slot s = false
    ∧ getAnimationTime slot s = none := by
  have h : ¬ slot < MAX_ANIMATIONS := Nat.not_lt.mpr hslot
  simp [setAnimation, advanceAnimation, stopAnimation, cancelAnimation,
        finishAnimation, isAnimationPlaying, isAnimationReversed,
        getAnimationTime, h]

/-- C4 witness: slot 4 (the first out-of-range index) on a concrete state. -/
theorem out_of_range_slot_noop_witness :
    setAnimation animIdle 0 (some 1) false 4 animStateOcc = animStateOcc
    ∧ advanceAnimation 4 100 animStateOcc = (false, animStateOcc)
    ∧ stopAnimation 4 animStateOcc = (false, animStateOcc)
    ∧ cancelAnimation 4 animStateOcc = (false, animStateOcc)
    ∧ finishAnimation 4 animStateOcc = (false, animStateOcc)
    ∧ isAnimationPlaying 4 animStateOcc = false
    ∧ isAnimationReversed 4 animStateOcc = false
    ∧ getAnimationTime 4 animStateOcc = none :=
  out_of_range_slot_noop 4 (by decide) animStateOcc animIdle 0 100 (some 1) false

/-- C8: on an in-range slot holding no controller, each removal/advance
operation returns false and leaves the state unchanged; and in general each
of them returns true exactly when a controller occupies the slot at call
time. -/
theorem empty_slot_returns_false
    (slot dt : ℕ) (s : AnimState)
    (hslot : slot < MAX_ANIMATIONS) (hempty : s.animMap slot = none) :
    cancelAnimation slot s = (false, s)
    ∧ stopAnimation slot s = (false, s)
    ∧ finishAnimation slot s = (false, s)
    ∧ advanceAnimation slot dt s = (false, s)
    ∧ (∀ s' : AnimState,
        (cancelAnimation slot s').1 = (s'.animMap slot).isSome
        ∧ (stopAnimation slot s').1 = (s'.animMap slot).isSome
        ∧ (finishAnimation slot s').1 = (s'.animMap slot).isSome
        ∧ (advanceAnimation slot dt s').1 = (s'.animMap slot).isSome) := by
  refine ⟨?_, ?_, ?_, ?_, ?_⟩
  · simp [cancelAnimation, hslot, hempty]
  · simp [stopAnimation, hslot, hempty]
  · simp [finishAnimation, hslot, hempty]
  · simp [advanceAnimation, hslot, hempty]
  · intro s'
    refine ⟨?_, ?_, ?_, ?_⟩ <;>
      · cases hc : s'.animMap slot <;>
          simp [cancelAnimation, stopAnimation, finishAnimation, advanceAnimation,
                hslot, hc] <;>
          split <;> rfl

theorem stop_foldl_spec (l : List ℕ) (s : AnimState) (hnd : l.Nodup) :
    ((l.foldl (fun st i => (stopAnimation i st).2) s).fired
        = s.fired ++ l.filterMap
            (fun i => if i < MAX_ANIMATIONS
                      then (s.animMap i).bind (fun c => c.finishedCallback)
                      else none))
    ∧ (∀ j, (l.foldl (fun st i => (stopAnimation i st).2) s).animMap j
        = if j ∈ l ∧ j < MAX_ANIMATIONS then none else s.animMap j) := by
  induction l generalizing s with
  | nil => simp
  | cons i rest ih =>
      obtain ⟨hni, hnd'⟩ := List.nodup_cons.mp hnd
      by_cases hi : i < MAX_ANIMATIONS
      · cases hc : s.animMap i with
        | none =>
            have hstep : (stopAnimation i s).2 = s := by
              simp [stopAnimation, hi, hc]
            obtain ⟨hf, hm⟩ := ih s hnd'
            constructor
            · simpa [hstep, List.filterMap_cons, hi, hc] using hf
            · intro j
              rw [List.foldl_cons, hstep, hm j]
              by_cases hji : j = i
              · subst hji
                simp [hi, hni, hc]
              · simp [hji]
        | some c =>
            set s1 : AnimState :=
              { s with animMap := Function.update s.animMap i none,
                       fired := s.fired ++ c.finishedCallback.toList } with hs1
            have hstep : (stopAnimation i s).2 = s1 := by
              simp [stopAnimation, hi, hc, hs1]
            obtain ⟨hf, hm⟩ := ih s1 hnd'
            have hmap1 : ∀ j ∈ rest, s1.animMap j = s.animMap j := by
              intro j hj
              have : j ≠ i := fun h => hni (h ▸ hj)
              simp [hs1, Function.update_noteq this]
            constructor
            · rw [List.foldl_cons, hstep, hf]
              have hcong : rest.filterMap
                    (fun j => if j < MAX_ANIMATIONS
                              then (s1.animMap j).bind (fun c => c.finishedCallback)
                              else none)
                  = rest.filterMap
                    (fun j => if j < MAX_ANIMATIONS
                              then (s.animMap j).bind (fun c => c.finishedCallback)
                              else none) := by
                apply List.filterMap_congr
                intro j hj
                rw [hmap1 j hj]
              rw [hcong]
              cases hcb : c.finishedCallback <;>
                simp [hs1, List.filterMap_cons, hi, hc, hcb]
            · intro j
              rw [List.foldl_cons, hstep, hm j]
              by_cases hji : j = i
              · subst hji
                simp [hi, hni, hs1]
              · simp [hji, hs1, Function.update_noteq hji]
      · have hstep : (stopAnimation i s).2 = s := by
          simp [stopAnimation, hi]
        obtain ⟨hf, hm⟩ := ih s hnd'
        constructor
        · simpa [hstep, List.filterMap_cons, hi] using hf
        · intro j
          rw [List.foldl_cons, hstep, hm j]
          by_cases hji : j = i
          · subst hji
            simp [hi, hni]
          · simp [hji]

theorem cancel_foldl_spec (l : List ℕ) (s : AnimState) (hnd : l.Nodup) :
    ((l.foldl (fun st i => (cancelAnimation i st).2) s).fired = s.fired)
    ∧ (∀ j, (l.foldl (fun st i => (cancelAnimation i st).2) s).animMap j
        = if j ∈ l ∧ j < MAX_ANIMATIONS then none else s.animMap j) := by
  induction l generalizing s with
  | nil => simp
  | cons i rest ih =>
      obtain ⟨hni, hnd'⟩ := List.nodup_cons.mp hnd
      by_cases hi : i < MAX_ANIMATIONS
      · cases hc : s.animMap i with
        | none =>
            have hstep : (cancelAnimation i s).2 = s := by
              simp [cancelAnimation, hi, hc]
            obtain ⟨hf, hm⟩ := ih s hnd'
            refine ⟨by simpa [hstep] using hf, ?_⟩
            intro j
            rw [List.foldl_cons, hstep, hm j]
            by_cases hji : j = i
            · subst hji
              simp [hi, hni, hc]
            · simp [hji]
        | some c =>
            set s1 : AnimState :=
              { s with animMap := Function.update s.animMap i none } with hs1
            have hstep : (cancelAnimation i s).2 = s1 := by
              simp [cancelAnimation, hi, hc, hs1]
            obtain ⟨hf, hm⟩ := ih s1 hnd'
            refine ⟨by simpa [hstep, hs1] using hf, ?_⟩
            intro j
            rw [List.foldl_cons, hstep, hm j]
            by_cases hji : j = i
            · subst hji
              simp [hi, hni, hs1]
            · simp [hji, hs1, Function.update_noteq hji]
      · have hstep : (cancelAnimation i s).2 = s := by
          simp [cancelAnimation, hi]
        obtain ⟨hf, hm⟩ := ih s hnd'
        refine ⟨by simpa [hstep] using hf, ?_⟩
        intro j
        rw [List.foldl_cons, hstep, hm j]
        by_cases hji : j = i
        · subst hji
          simp [hi, hni]
        · simp [hji]

/-- C10: `stopAllAnimations` invokes each occupied slot's completion callback
exactly once (the fired log grows by exactly the occupied callbacks, in slot
order); `cancelAllAnimations` invokes none; after either call every slot is
free, so `isAnimationPlaying` is false on every slot index. -/
theorem all_slot_teardown (s : AnimState) :
    (stopAllAnimations s).fired = s.fired ++ occupiedCallbacks s
    ∧ (cancelAllAnimations s).fired = s.fired
    ∧ (∀ slot, isAnimationPlaying slot (stopAllAnimations s) = false)
    ∧ (∀ slot, isAnimationPlaying slot (cancelAllAnimations s) = false) := by
  obtain ⟨hsf, hsm⟩ := stop_foldl_spec (List.range MAX_ANIMATIONS) s (List.nodup_range _)
  obtain ⟨hcf, hcm⟩ := cancel_foldl_spec (List.range MAX_ANIMATIONS) s (List.nodup_range _)
  refine ⟨?_, ?_, ?_, ?_⟩
  · have hcong : (List.range MAX_ANIMATIONS).filterMap
          (fun i => if i < MAX_ANIMATIONS
                    then (s.animMap i).bind (fun c => c.finishedCallback)
                    else none)
        = occupiedCallbacks s := by
      rw [occupiedCallbacks]
      apply List.filterMap_congr
      intro i hi
      simp [List.mem_range.mp hi]
    rw [stopAllAnimations, hsf, hcong]
  · rw [cancelAllAnimations, hcf]
  · intro slot
    by_cases h : slot < MAX_ANIMATIONS
    · have := hsm slot
      rw [if_pos ⟨List.mem_range.mpr h, h⟩] at this
      simp [isAnimationPlaying, stopAllAnimations, this]
    · simp [isAnimationPlaying, h]
  · intro slot
    by_cases h : slot < MAX_ANIMATIONS
    · have := hcm slot
      rw [if_pos ⟨List.mem_range.mpr h, h⟩] at this
      simp [isAnimationPlaying, cancelAllAnimations, this]
    · simp [isAnimationPlaying, h]

theorem setFold_hookLog (l : List (String × ℚ)) (s : SBState) :
    (l.foldl (fun st nv => setPropertyS nv.1 nv.2 st) s).hookLog
      = s.hookLog ++ l.map Prod.fst := by
  induction l generalizing s with
  | nil => simp
  | cons nv rest ih =>
      rw [List.foldl_cons, ih]
      simp [setPropertyS]

theorem setFold_selected (l : List (String × ℚ)) (s : SBState) :
    (l.foldl (fun st nv => setPropertyS nv.1 nv.2 st) s).selected = s.selected := by
  induction l generalizing s with
  | nil => rfl
  | cons nv rest ih =>
      rw [List.foldl_cons, ih]
      rfl

theorem setFold_props_not_mem (l : List (String × ℚ)) (s : SBState) (q : String)
    (hq : ∀ nv ∈ l, nv.1 ≠ q) :
    (l.foldl (fun st nv => setPropertyS nv.1 nv.2 st) s).props q = s.props q := by
  induction l generalizing s with
  | nil => rfl
  | cons nv rest ih =>
      rw [List.foldl_cons, ih _ (fun mv hm => hq mv (List.mem_cons_of_mem nv hm))]
      have hne : q ≠ nv.1 := Ne.symm (hq nv (List.mem_cons_self nv rest))
      simp [setPropertyS, Function.update_noteq hne]

theorem setFold_props_snapshot (l : List (String × ℚ)) (orig : String → ℚ)
    (s : SBState) (q : String)
    (hconst : ∀ nv ∈ l, nv.2 = orig nv.1) (hq : q ∈ l.map Prod.fst) :
    (l.foldl (fun st nv => setPropertyS nv.1 nv.2 st) s).props q = orig q := by
  induction l generalizing s with
  | nil => simp at hq
  | cons nv rest ih =>
      by_cases hmem : q ∈ rest.map Prod.fst
      · exact ih _ (fun mv hm => hconst mv (List.mem_cons_of_mem nv hm)) hmem
      · have hkey : nv.1 = q := by
          rcases List.mem_map.mp hq with ⟨mv, hmv, hfst⟩
          rcases List.mem_cons.mp hmv with h | h
          · rw [← h]; exact hfst
          · exact absurd (List.mem_map.mpr ⟨mv, h, hfst⟩) hmem
        have hrest : ∀ mv ∈ rest, mv.1 ≠ q := by
          intro mv hm he
          exact hmem (List.mem_map.mpr ⟨mv, hm, he⟩)
        rw [List.foldl_cons, setFold_props_not_mem rest _ q hrest]
        have hval : nv.2 = orig q := by
          rw [hconst nv (List.mem_cons_self nv rest), hkey]
        simp [setPropertyS, hkey, Function.update_same, hval]

theorem selectStoryboard_success (name : String) (s : SBState) (sb : ThemeStoryboard)
    (hsb : s.storyboards name = some sb) (hsel : s.selected = none) :
    selectStoryboard name s
      = (true, { s with selected := some ⟨name,
          sb.tracks.map (fun t => (t.propertyName, s.props t.propertyName))⟩ }) := by
  unfold selectStoryboard
  rw [hsb, hsel]

theorem deselectStoryboard_some_true (s : SBState)
    (sel : SelectedStoryboard) (h : s.selected = some sel) :
    deselectStoryboard true s
      = { (sel.snapshot.foldl (fun st nv => setPropertyS nv.1 nv.2 st) s) with
          selected := none } := by
  unfold deselectStoryboard
  rw [h]
  rfl

theorem deselectStoryboard_some_false (s : SBState)
    (sel : SelectedStoryboard) (h : s.selected = some sel) :
    deselectStoryboard false s = { s with selected := none } := by
  unfold deselectStoryboard
  rw [h]
  rfl

/-- C5: with a storyboard registered and nothing selected, selection
succeeds and snapshots the referenced properties; after any sequence of
playback mutations, `deselectStoryboard true` restores every property
referenced by the storyboard's tracks to its pre-selection value, doing so
through the normal setter path (the change hooks fire, one per snapshotted
property); `deselectStoryboard false` leaves every property at its
last-applied value. -/
theorem deselect_restore_semantics
    (name : String) (sb : ThemeStoryboard) (s : SBState)
    (muts : List (String × ℚ))
    (hsb : s.storyboards name = some sb) (hsel : s.selected = none) :
    (selectStoryboard name s).1 = true
    ∧ (∀ q ∈ sb.tracks.map (fun t => t.propertyName),
        (deselectStoryboard true
            (sbPlaybackApply muts (selectStoryboard name s).2)).props q
          = s.props q)
    ∧ (deselectStoryboard true
          (sbPlaybackApply muts (selectStoryboard name s).2)).hookLog
        = (sbPlaybackApply muts (selectStoryboard name s).2).hookLog
            ++ sb.tracks.map (fun t => t.propertyName)
    ∧ (deselectStoryboard false
          (sbPlaybackApply muts (selectStoryboard name s).2)).props
        = (sbPlaybackApply muts (selectStoryboard name s).2).props := by
  have hsel1 : (selectStoryboard name s).2.selected
      = some ⟨name, sb.tracks.map (fun t => (t.propertyName, s.props t.propertyName))⟩ := by
    rw [selectStoryboard_success name s sb hsb hsel]
  have hsel2 : (sbPlaybackApply muts (selectStoryboard name s).2).selected
      = some ⟨name, sb.tracks.map (fun t => (t.propertyName, s.props t.propertyName))⟩ := by
    rw [sbPlaybackApply, setFold_selected, hsel1]
  refine ⟨by rw [selectStoryboard_success name s sb hsb hsel], ?_, ?_, ?_⟩
  · intro q hq
    rw [deselectStoryboard_some_true _ _ hsel2]
    have hconst : ∀ nv ∈ sb.tracks.map
        (fun t => (t.propertyName, s.props t.propertyName)), nv.2 = s.props nv.1 := by
      intro nv hnv
      rcases List.mem_map.mp hnv with ⟨t, _, ht⟩
      rw [← ht]
    have hq' : q ∈ (sb.tracks.map
        (fun t => (t.propertyName, s.props t.propertyName))).map Prod.fst := by
      rw [List.map_map]
      exact hq
    simpa using setFold_props_snapshot _ (s.props) _ q hconst hq'
  · rw [deselectStoryboard_some_true _ _ hsel2]
    have := setFold_hookLog
      (sb.tracks.map (fun t => (t.propertyName, s.props t.propertyName)))
      (sbPlaybackApply muts (selectStoryboard name s).2)
    simp only [List.map_map] at this
    simpa using this
  · rw [deselectStoryboard_some_false _ _ hsel2]

/-- C5 witness: the "fade" storyboard on a concrete state, one playback
mutation of opacity, then deselect with and without restore. -/
theorem deselect_restore_semantics_witness :
    (selectStoryboard "fade" sbStateSample).1 = true
    ∧ (∀ q ∈ sbFade.tracks.map (fun t => t.propertyName),
        (deselectStoryboard true
            (sbPlaybackApply [("opacity", 100)]
              (selectStoryboard "fade" sbStateSample).2)).props q
          = sbStateSample.props q)
    ∧ (deselectStoryboard true
          (sbPlaybackApply [("opacity", 100)]
            (selectStoryboard "fade" sbStateSample).2)).hookLog
        = (sbPlaybackApply [("opacity", 100)]
            (selectStoryboard "fade" sbStateSample).2).hookLog
            ++ sbFade.tracks.map (fun t => t.propertyName)
    ∧ (deselectStoryboard false
          (sbPlaybackApply [("opacity", 100)]
            (selectStoryboard "fade" sbStateSample).2)).props
        = (sbPlaybackApply [("opacity", 100)]
            (selectStoryboard "fade" sbStateSample).2).props :=
  deselect_restore_semantics "fade" sbFade sbStateSample [("opacity", 100)]
    (by decide) rfl

theorem clipRegion_combine (i own : Option Vector4f) :
    clipRegion (clipCombine i own) = clipRegion i ∩ clipRegion own := by
  cases i with
  | none => cases own <;> simp [clipCombine, clipRegion]
  | some a =>
      cases own with
      | none => simp [clipCombine, clipRegion]
      | some b =>
          ext p
          simp only [clipCombine, clipRegion, clipIntersect, Set.mem_inter_iff,
                     Set.mem_setOf_eq]
          have hx : max a.x b.x + (min (a.x + a.z) (b.x + b.z) - max a.x b.x)
              = min (a.x + a.z) (b.x + b.z) := by ring
          have hy : max a.y b.y + (min (a.y + a.w) (b.y + b.w) - max a.y b.y)
              = min (a.y + a.w) (b.y + b.w) := by ring
          rw [hx, hy]
          constructor
          · rintro ⟨h1, h2, h3, h4⟩
            exact ⟨⟨le_of_max_le_left h1, le_trans h2 (min_le_left _ _),
                    le_of_max_le_left h3, le_trans h4 (min_le_left _ _)⟩,
                   le_of_max_le_right h1, le_trans h2 (min_le_right _ _),
                   le_of_max_le_right h3, le_trans h4 (min_le_right _ _)⟩
          · rintro ⟨⟨a1, a2, a3, a4⟩, b1, b2, b3, b4⟩
            exact ⟨max_le a1 b1, le_min a2 b2, max_le a3 b3, le_min a4 b4⟩

mutual

theorem renderClips_subset (inh : Option Vector4f) (t : GuiNode) :
    ∀ eff ∈ renderClips inh t, clipRegion eff ⊆ clipRegion inh :=
  match t with
  | .mk own children => by
      intro eff heff
      simp only [renderClips, List.mem_cons] at heff
      rcases heff with h | h
      · subst h
        rw [clipRegion_combine]
        exact Set.inter_subset_left
      · have hsub := renderChildrenClips_subset (clipCombine inh own) children eff h
        refine hsub.trans ?_
        rw [clipRegion_combine]
        exact Set.inter_subset_left

theorem renderChildrenClips_subset (inh : Option Vector4f) (ts : List GuiNode) :
    ∀ eff ∈ renderChildrenClips inh ts, clipRegion eff ⊆ clipRegion inh :=
  match ts with
  | [] => by
      intro eff h
      simp [renderChildrenClips] at h
  | t :: rest => by
      intro eff heff
      simp only [renderChildrenClips, List.mem_append] at heff
      rcases heff with h | h
      · exact renderClips_subset inh t eff h
      · exact renderChildrenClips_subset inh rest eff h

end

/-- C6: combining a node's own clip with the inherited clip is exactly set
intersection of the two clip regions (never a replacement), `renderClips`
passes that combined clip down to the child recursion, and consequently
every effective clip in a rendered subtree is a subset of the inherited
clip — a child's effective clip region is never larger than its
parent's. -/
theorem clip_composition_monotone :
    (∀ (inh own : Option Vector4f),
        clipRegion (clipCombine inh own) = clipRegion inh ∩ clipRegion own)
    ∧ (∀ (inh own : Option Vector4f) (children : List GuiNode),
        renderClips inh (.mk own children)
          = clipCombine inh own
              :: renderChildrenClips (clipCombine inh own) children)
    ∧ (∀ (inh : Option Vector4f) (t : GuiNode) (eff : Option Vector4f),
        eff ∈ renderClips inh t → clipRegion eff ⊆ clipRegion inh) := by
  refine ⟨clipRegion_combine, ?_, ?_⟩
  · intro inh own children
    simp [renderClips]
  · intro inh t eff h
    exact renderClips_subset inh t eff h

/-- C6 witness: a child with clip (2,2,5,5) rendered under an inherited clip
(0,0,10,10): its effective clip region is contained in the inherited one. -/
theorem clip_composition_monotone_witness :
    clipRegion (clipCombine (some ⟨0, 0, 10, 10⟩) (some ⟨2, 2, 5, 5⟩))
      ⊆ clipRegion (some ⟨0, 0, 10, 10⟩) :=
  clip_composition_monotone.2.2 (some ⟨0, 0, 10, 10⟩)
    (GuiNode.mk (some ⟨2, 2, 5, 5⟩) []) _
    (by simp [renderClips, renderChildrenClips])

mutual

theorem updateNode_trace_paths (dt : ℕ) (p : List ℕ) (t : UNode) :
    ∀ e ∈ (updateNode dt p t).2, p.length ≤ e.1.length ∧ e.1.take p.length = p :=
  match t with
  | .mk st cs => by
      intro e he
      simp only [updateNode, List.mem_cons] at he
      rcases he with h | h
      · subst h
        exact ⟨le_refl _, List.take_length p⟩
      · have hd := updateChildren_trace_paths dt p 0 cs e h
        exact ⟨le_of_lt hd.1, hd.2⟩

theorem updateChildren_trace_paths (dt : ℕ) (p : List ℕ) (i : ℕ) (ts : List UNode) :
    ∀ e ∈ (updateChildrenNodes dt p i ts).2,
      p.length < e.1.length ∧ e.1.take p.length = p :=
  match ts with
  | [] => by
      intro e h
      simp [updateChildrenNodes] at h
  | c :: cs => by
      intro e he
      simp only [updateChildrenNodes, List.mem_append] at he
      rcases he with h | h
      · obtain ⟨hlen, htake⟩ := updateNode_trace_paths dt (p ++ [i]) c e h
        rw [List.length_append, List.length_singleton] at hlen htake
        constructor
        · omega
        · have h1 : e.1.take p.length = (e.1.take (p.length + 1)).take p.length := by
            rw [List.take_take]
            congr 1
            omega
          rw [h1, htake]
          exact List.take_left p [i]
      · exact updateChildren_trace_paths dt p (i + 1) cs e h

end

/-- C7: within a single `update(deltaTime)` tick, a node's own animations
advance (via `updateSelf`) before it recurses into its children's updates:
the first event of the update trace is the node's own self-update event,
carrying the node's post-animation property values, and every subsequent
event belongs to a strict descendant — so the parent's property changes are
in place when the children update in the same tick. -/
theorem update_self_before_children (dt : ℕ) (path : List ℕ)
    (st : AnimState) (cs : List UNode) :
    (updateNode dt path (.mk st cs)).2.head?
        = some (path, (updateSelfA dt st).props)
    ∧ descendantsOnly path (updateNode dt path (.mk st cs)).2.tail = true := by
  constructor
  · simp [updateNode]
  · simp only [updateNode, List.tail_cons]
    rw [descendantsOnly, List.all_eq_true]
    intro e he
    have h := updateChildren_trace_paths dt path 0 cs e he
    simp [strictDescendant, h.1, h.2]

/-- C9: `getClipRect` exposes the clip-rectangle field by non-const
reference (inline in the header): assigning through the returned reference
stores into `mClipRect` directly and is observable through a subsequent
read, while the virtual `setClipRect` is never dispatched (its call log is
untouched) — unlike a call through the setter path, which is logged. -/
theorem getClipRect_ref_bypasses_setter (c : ClipComp) (v : Vector4f) :
    (assignThroughClipRef v c).mClipRect = v
    ∧ getClipRect_read (assignThroughClipRef v c) = v
    ∧ (assignThroughClipRef v c).setClipRectCalls = c.setClipRectCalls
    ∧ (setClipRect_call v c).setClipRectCalls = c.setClipRectCalls ++ [v] :=
  ⟨rfl, rfl, rfl, rfl⟩

/-- C8 witness: empty slot 1 of a concrete state. -/
theorem empty_slot_returns_false_witness :
    cancelAnimation 1 animStateOcc = (false, animStateOcc)
    ∧ stopAnimation 1 animStateOcc = (false, animStateOcc)
    ∧ finishAnimation 1 animStateOcc = (false, animStateOcc)
    ∧ advanceAnimation 1 100 animStateOcc = (false, animStateOcc)
    ∧ (∀ s' : AnimState,
        (cancelAnimation 1 s').1 = (s'.animMap 1).isSome
        ∧ (stopAnimation 1 s').1 = (s'.animMap 1).isSome
        ∧ (finishAnimation 1 s').1 = (s'.animMap 1).isSome
        ∧ (advanceAnimation 1 100 s').1 = (s'.animMap 1).isSome) :=
  empty_slot_returns_false 1 100 animStateOcc (by decide) rfl

end GuiComp
